import Mathlib

/-!
Verification development for the log-parsing core of the `loggy` repository
(`src/utils/logParser.ts`).  The TypeScript source is shallowly embedded as
executable Lean definitions: the JavaScript dynamic values that flow through
the parser (JSON objects, strings, the ambient clock) are modelled
explicitly, try/catch recovery is modelled with `Option`, and the regular
expressions of the pattern registry are embedded verbatim as abstract-syntax
values interpreted by a small backtracking matcher with JavaScript's greedy,
first-match semantics.
-/

set_option maxRecDepth 4096

namespace Loggy

/-! ## JavaScript string primitives

`jsWs` is the character set matched by the JavaScript regex class `\s` and
removed by `String.prototype.trim` (WhiteSpace plus LineTerminator). -/

def jsWs (c : Char) : Bool :=
  (c = ' ') || (c = '\t') || (c = '\n') || (c = '\r') || (c = '\x0b') ||
  (c = '\x0c') || (c = '\u00A0') || (c = '\u1680') ||
  (('\u2000' ≤ c) && (c ≤ '\u200A')) || (c = '\u2028') || (c = '\u2029') ||
  (c = '\u202F') || (c = '\u205F') || (c = '\u3000') || (c = '\uFEFF')

/-- Drop leading JS whitespace from a character list. -/
def dropL : List Char → List Char
  | [] => []
  | c :: r => if jsWs c then dropL r else c :: r

/-- JS `String.prototype.trim` on a character list. -/
def trimL (l : List Char) : List Char :=
  (dropL ((dropL l).reverse)).reverse

/-- JS `String.prototype.trim`. -/
def trimS (s : String) : String := String.mk (trimL s.data)

/-- JS `content.split("\n")` on a character list: the list of segments
between `\n` characters (always non-empty; the empty string splits to one
empty segment, as in JavaScript). -/
def splitNlL : List Char → List (List Char)
  | [] => [[]]
  | c :: r =>
    if c = '\n' then [] :: splitNlL r
    else
      match splitNlL r with
      | [] => [[c]]
      | h :: t => (c :: h) :: t

/-- JS `content.split("\n")`. -/
def jsSplit (s : String) : List String := (splitNlL s.data).map String.mk

/-- Whether `needle` occurs at the start of `hay`. -/
def pfx : List Char → List Char → Bool
  | [], _ => true
  | _ :: _, [] => false
  | a :: as, b :: bs => (a = b) && pfx as bs

/-- JS `hay.includes(needle)`: substring containment. -/
def containsSub (needle : String) (hay : String) : Bool :=
  go needle.data hay.data
where
  go (n : List Char) : List Char → Bool
    | [] => pfx n []
    | c :: rest => pfx n (c :: rest) || go n rest

/-- JS `String.prototype.toUpperCase` (ASCII model). -/
def upperS (s : String) : String := String.mk (s.data.map Char.toUpper)

/-- JS `String.prototype.toLowerCase` (ASCII model). -/
def lowerS (s : String) : String := String.mk (s.data.map Char.toLower)

/-- JS `Array.prototype.join(sep)` for an array of strings. -/
def joinSep (sep : String) : List String → String
  | [] => ""
  | [x] => x
  | x :: y :: xs => x ++ sep ++ joinSep sep (y :: xs)

/-- JS `text.indexOf("\x7b")` starting from index `i`. -/
def idxOfLbrace : List Char → Nat → Option Nat
  | [], _ => none
  | c :: rest, i => if c = Char.ofNat 123 then some i else idxOfLbrace rest (i + 1)

/-! ## JSON values

A model of the JavaScript values produced by `JSON.parse`.  Numbers keep
their source lexeme: none of the parser's decisions depend on numeric
magnitude beyond zero-ness, which is computed from the lexeme. -/

inductive Json where
  | null : Json
  | bool : Bool → Json
  | num : String → Json
  | str : String → Json
  | arr : List Json → Json
  | obj : List (String × Json) → Json

/-- Property lookup `o[k]` on a parsed JSON object: JavaScript's
`JSON.parse` keeps the last of duplicate keys, so the last binding wins.
Lookup on a non-object yields `undefined` (`none`). -/
def lastAssoc : List (String × Json) → String → Option Json
  | [], _ => none
  | (k', v) :: rest, k =>
    match lastAssoc rest k with
    | some r => some r
    | none => if k' = k then some v else none

def jsLookup : Json → String → Option Json
  | Json.obj kvs, k => lastAssoc kvs k
  | _, _ => none

/-- Whether a JSON number lexeme denotes zero: every mantissa digit is `0`. -/
def numIsZero (lex : String) : Bool :=
  ((lex.data.takeWhile (fun c => (c != 'e') && (c != 'E'))).filter
    (fun c => c.isDigit)).all (fun c => c = '0')

/-- JavaScript truthiness of a JSON value. -/
def jsTruthy : Json → Bool
  | Json.null => false
  | Json.bool b => b
  | Json.num lex => !(numIsZero lex)
  | Json.str s => s != ""
  | Json.arr _ => true
  | Json.obj _ => true

def optJsTruthy : Option Json → Bool
  | none => false
  | some v => jsTruthy v

mutual

/-- JS `String(v)` for a JSON value; array elements convert as in
`Array.prototype.join` (null elements become the empty string).  Number
lexemes are returned as written, a faithful model for the integral and
already-canonical numerals that occur in log data. -/
def jsToString : Json → String
  | Json.null => "null"
  | Json.bool true => "true"
  | Json.bool false => "false"
  | Json.num lex => lex
  | Json.str s => s
  | Json.arr xs => joinSep "," (jsArrElems xs)
  | Json.obj _ => "[object Object]"

def jsArrElems : List Json → List String
  | [] => []
  | x :: xs =>
    (match x with
     | Json.null => ""
     | v => jsToString v) :: jsArrElems xs

end

/-- The `pick` helper of the source (used by the summary builder and the
embedded-JSON backfill): the first candidate key whose value is neither
`undefined` nor `null`. -/
def pickJson (j : Json) : List String → Option Json
  | [] => none
  | k :: ks =>
    match jsLookup j k with
    | some Json.null => pickJson j ks
    | some v => some v
    | none => pickJson j ks

/-- JS `a || b` over possibly-undefined JSON values. -/
def jsOr (a b : Option Json) : Option Json :=
  match a with
  | some v => if jsTruthy v then some v else b
  | none => b

/-- The value of `j.k1 || j.k2 || ... || j.kn`. -/
def jsOrChain (j : Json) (keys : List String) : Option Json :=
  (keys.map (jsLookup j)).foldl jsOr none

/-! ## `JSON.parse`

A recursive-descent parser for strict JSON over character lists, fuelled by
the input length (nesting depth is bounded by the number of characters, so
the fuel can never run out on the inputs it is given). -/

def jsonWsChar (c : Char) : Bool :=
  (c = ' ') || (c = '\t') || (c = '\n') || (c = '\r')

def skipJsonWs (cs : List Char) : List Char := cs.dropWhile jsonWsChar

def hexVal (c : Char) : Option Nat :=
  if '0' ≤ c ∧ c ≤ '9' then some (c.toNat - '0'.toNat)
  else if 'a' ≤ c ∧ c ≤ 'f' then some (c.toNat - 'a'.toNat + 10)
  else if 'A' ≤ c ∧ c ≤ 'F' then some (c.toNat - 'A'.toNat + 10)
  else none

/-- Parse the body of a JSON string after the opening quote. -/
def pStringBody : Nat → List Char → Option (List Char × List Char)
  | 0, _ => none
  | _ + 1, [] => none
  | fuel + 1, c :: rest =>
    if c = '"' then some ([], rest)
    else if c = '\\' then
      match rest with
      | [] => none
      | e :: rest2 =>
        let cont (r : Char) (rem : List Char) : Option (List Char × List Char) :=
          match pStringBody fuel rem with
          | some (body, rem2) => some (r :: body, rem2)
          | none => none
        if e = '"' then cont '"' rest2
        else if e = '\\' then cont '\\' rest2
        else if e = '/' then cont '/' rest2
        else if e = 'b' then cont '\x08' rest2
        else if e = 'f' then cont '\x0c' rest2
        else if e = 'n' then cont '\n' rest2
        else if e = 'r' then cont '\r' rest2
        else if e = 't' then cont '\t' rest2
        else if e = 'u' then
          match rest2 with
          | h1 :: h2 :: h3 :: h4 :: rest3 =>
            match hexVal h1, hexVal h2, hexVal h3, hexVal h4 with
            | some v1, some v2, some v3, some v4 =>
              cont (Char.ofNat (((v1 * 16 + v2) * 16 + v3) * 16 + v4)) rest3
            | _, _, _, _ => none
          | _ => none
        else none
    else if c.toNat < 0x20 then none
    else
      match pStringBody fuel rest with
      | some (body, rem2) => some (c :: body, rem2)
      | none => none

/-- Parse a JSON number, returning its lexeme. -/
def pNumber (cs : List Char) : Option (String × List Char) :=
  let sign : List Char × List Char :=
    match cs with
    | '-' :: rest => (['-'], rest)
    | _ => ([], cs)
  let intPart : Option (List Char × List Char) :=
    match sign.2 with
    | '0' :: rest => some (['0'], rest)
    | c :: rest =>
      if '1' ≤ c ∧ c ≤ '9' then
        some (c :: rest.takeWhile Char.isDigit, rest.dropWhile Char.isDigit)
      else none
    | [] => none
  match intPart with
  | none => none
  | some (ip, rest1) =>
    let frac : List Char × List Char :=
      match rest1 with
      | '.' :: d :: rest2 =>
        if d.isDigit then
          ('.' :: d :: rest2.takeWhile Char.isDigit, rest2.dropWhile Char.isDigit)
        else ([], rest1)
      | _ => ([], rest1)
    let rest2 := frac.2
    let expo : Option (List Char × List Char) :=
      match rest2 with
      | e :: rest3 =>
        if e = 'e' ∨ e = 'E' then
          let signedRest : List Char × List Char :=
            match rest3 with
            | s :: rest4 => if s = '+' ∨ s = '-' then ([s], rest4) else ([], rest3)
            | [] => ([], rest3)
          match signedRest.2 with
          | d :: rest5 =>
            if d.isDigit then
              some (e :: signedRest.1 ++ d :: rest5.takeWhile Char.isDigit,
                    rest5.dropWhile Char.isDigit)
            else none
          | [] => none
        else some ([], rest2)
      | [] => some ([], rest2)
    match expo with
    | none => none
    | some (ep, rest3) =>
      some (String.mk (sign.1 ++ ip ++ frac.1 ++ ep), rest3)

mutual

/-- Parse one JSON value (leading whitespace already skipped). -/
def pValue : Nat → List Char → Option (Json × List Char)
  | 0, _ => none
  | _ + 1, [] => none
  | fuel + 1, c :: rest =>
    if c = '"' then
      match pStringBody fuel rest with
      | some (body, rem) => some (Json.str (String.mk body), rem)
      | none => none
    else if c = Char.ofNat 123 then
      match skipJsonWs rest with
      | c2 :: rest2 =>
        if c2 = Char.ofNat 125 then some (Json.obj [], rest2)
        else
          match pMembers fuel (c2 :: rest2) with
          | some (kvs, rem) => some (Json.obj kvs, rem)
          | none => none
      | [] => none
    else if c = '[' then
      match skipJsonWs rest with
      | c2 :: rest2 =>
        if c2 = ']' then some (Json.arr [], rest2)
        else
          match pElems fuel (c2 :: rest2) with
          | some (xs, rem) => some (Json.arr xs, rem)
          | none => none
      | [] => none
    else if c = 't' then
      match rest with
      | 'r' :: 'u' :: 'e' :: rem => some (Json.bool true, rem)
      | _ => none
    else if c = 'f' then
      match rest with
      | 'a' :: 'l' :: 's' :: 'e' :: rem => some (Json.bool false, rem)
      | _ => none
    else if c = 'n' then
      match rest with
      | 'u' :: 'l' :: 'l' :: rem => some (Json.null, rem)
      | _ => none
    else
      match pNumber (c :: rest) with
      | some (lex, rem) => some (Json.num lex, rem)
      | none => none

/-- Parse the members of an object, positioned at the first member's key
(a closing brace for the empty object is handled by the caller). -/
def pMembers : Nat → List Char → Option (List (String × Json) × List Char)
  | 0, _ => none
  | fuel + 1, cs =>
    match cs with
    | '"' :: rest =>
      match pStringBody fuel rest with
      | some (key, rest2) =>
        match skipJsonWs rest2 with
        | ':' :: rest3 =>
          match pValue fuel (skipJsonWs rest3) with
          | some (v, rest4) =>
            match skipJsonWs rest4 with
            | ',' :: rest5 =>
              match pMembers fuel (skipJsonWs rest5) with
              | some (kvs, rem) => some ((String.mk key, v) :: kvs, rem)
              | none => none
            | c :: rest5 =>
              if c = Char.ofNat 125 then some ([(String.mk key, v)], rest5)
              else none
            | [] => none
          | none => none
        | _ => none
      | none => none
    | _ => none

/-- Parse the elements of an array, positioned at the first element. -/
def pElems : Nat → List Char → Option (List Json × List Char)
  | 0, _ => none
  | fuel + 1, cs =>
    match pValue fuel cs with
    | some (v, rest) =>
      match skipJsonWs rest with
      | ',' :: rest2 =>
        match pElems fuel (skipJsonWs rest2) with
        | some (xs, rem) => some (v :: xs, rem)
        | none => none
      | ']' :: rest2 => some ([v], rest2)
      | _ => none
    | none => none

end

/-- JS `JSON.parse` returning `none` where JavaScript throws a
`SyntaxError` (the callers of this model all catch that exception). -/
def jsonParse (s : String) : Option Json :=
  match pValue (s.data.length + 1) (skipJsonWs s.data) with
  | some (v, rest) => if skipJsonWs rest = [] then some v else none
  | none => none

/-! ## Regular expressions

The registry's patterns are embedded as abstract syntax trees interpreted
by a continuation-passing backtracking matcher with JavaScript semantics:
quantifiers are greedy and backtrack one iteration at a time, alternatives
of `?` try the present branch first, and capture groups record the exact
substring consumed by their most recent successful attempt. -/

inductive Re where
  | eps : Re
  | cls : (Char → Bool) → Re
  | seq : Re → Re → Re
  | opt : Re → Re
  | star : Re → Re
  | group : Nat → Re → Re

def Re.size : Re → Nat
  | Re.eps => 1
  | Re.cls _ => 1
  | Re.seq a b => a.size + b.size + 1
  | Re.opt a => a.size + 1
  | Re.star a => a.size + 1
  | Re.group _ a => a.size + 1

/-- Captured groups: most recent capture first. -/
def Caps := List (Nat × String)

/-- The source's `match[i]`: the capture of group `i`, `undefined` when the group did
not participate in the match. -/
def capGet (caps : Caps) (i : Nat) : Option String :=
  match caps with
  | [] => none
  | (g, s) :: rest => if g = i then some s else capGet rest i

/-- The backtracking matcher.  `k` is the continuation receiving the
remaining input and captures; a `star` iteration that consumes nothing ends
the loop, as in JavaScript.  The fuel only bounds call depth; it is chosen
far above the worst case (one unit per iteration or subterm) at the entry
points below, so it never runs out on the inputs it is given. -/
def reMatch {ρ : Type} : Nat → Re → List Char → (List Char → Caps → Option ρ) → Caps → Option ρ
  | 0, _, _, _, _ => none
  | fuel + 1, r, s, k, caps =>
    match r with
    | Re.eps => k s caps
    | Re.cls p =>
      match s with
      | [] => none
      | c :: rest => if p c then k rest caps else none
    | Re.seq a b => reMatch fuel a s (fun s1 c1 => reMatch fuel b s1 k c1) caps
    | Re.opt a =>
      match reMatch fuel a s k caps with
      | some res => some res
      | none => k s caps
    | Re.star a =>
      match reMatch fuel a s
          (fun s1 c1 =>
            if s1.length < s.length then reMatch fuel (Re.star a) s1 k c1 else none)
          caps with
      | some res => some res
      | none => k s caps
    | Re.group i a =>
      reMatch fuel a s
        (fun s1 c1 => k s1 ((i, String.mk (s.take (s.length - s1.length))) :: c1))
        caps

def reFuel (r : Re) (s : List Char) : Nat := (s.length + 2) * (r.size + 2)

/-- Run a regex anchored at both ends (`^...$`). -/
def reRunAnchored (r : Re) (s : String) : Option Caps :=
  reMatch (reFuel r s.data) r s.data
    (fun s1 caps => if s1.isEmpty then some caps else none) []

/-- Run a `^`-anchored regex with no `$` (a prefix match suffices). -/
def reRunPre (r : Re) (s : String) : Option Caps :=
  reMatch (reFuel r s.data) r s.data (fun _ caps => some caps) []

/-- Run a `^`-anchored, un-`$`-ed regex returning captures and the input
remaining after the match (used to model `String.prototype.replace`). -/
def reRunPreRem (r : Re) (cs : List Char) : Option (Caps × List Char) :=
  reMatch (reFuel r cs) r cs (fun s1 caps => some (caps, s1)) []

/-- Sequence a list of regexes. -/
def rSeq (rs : List Re) : Re := rs.foldr Re.seq Re.eps

/-- The source's `r\x7bn\x7d`: exactly `n` repetitions. -/
def rRep : Nat → Re → Re
  | 0, _ => Re.eps
  | n + 1, r => Re.seq r (rRep n r)

/-- The source's `r+` as `r` followed by `r*` (same greedy backtracking order). -/
def rPlus (r : Re) : Re := Re.seq r (Re.star r)

def rLit (c : Char) : Re := Re.cls (fun c' => c' = c)

/-- The source's `\d` -/
def rDigit : Re := Re.cls (fun c => ('0' ≤ c) && (c ≤ '9'))

/-- The source's `\s` -/
def rWs : Re := Re.cls jsWs

/-- The source's `\S` -/
def rNonWs : Re := Re.cls (fun c => !(jsWs c))

/-- The source's `\w` -/
def rWord : Re := Re.cls (fun c =>
  (('a' ≤ c) && (c ≤ 'z')) || (('A' ≤ c) && (c ≤ 'Z')) ||
  (('0' ≤ c) && (c ≤ '9')) || (c = '_'))

/-- The source's `[A-Z]` -/
def rUpper : Re := Re.cls (fun c => ('A' ≤ c) && (c ≤ 'Z'))

/-- The source's `[a-z]` -/
def rLower : Re := Re.cls (fun c => ('a' ≤ c) && (c ≤ 'z'))

/-- The source's `.` (without the `s` flag: anything but a line terminator). -/
def rDot : Re := Re.cls (fun c =>
  !((c = '\n') || (c = '\r') || (c = '\u2028') || (c = '\u2029')))

/-- The source's `[^x]` -/
def rNot (x : Char) : Re := Re.cls (fun c => !(c = x))

def rD2 : Re := rRep 2 rDigit

def rD4 : Re := rRep 4 rDigit

/-- The source's `\d{2}:\d{2}:\d{2}` -/
def rHms : Re := rSeq [rD2, rLit ':', rD2, rLit ':', rD2]

/-- The source's `(?:\.\d{3})?` -/
def rMillis : Re := Re.opt (Re.seq (rLit '.') (rRep 3 rDigit))

/-! ## The Line-Shape Pattern Registry (`LOG_PATTERNS`) -/

structure LogPattern where
  name : String
  re : Re
  /-- Whether the source regex ends with `$`. -/
  anchoredEnd : Bool
  gTimestamp : Option Nat
  gLevel : Option Nat
  gMessage : Option Nat
  gSource : Option Nat
  gThread : Option Nat

/-- The source's `^(\d\x7b4\x7d-\d\x7b2\x7d-\d\x7b2\x7dT\d\x7b2\x7d:\d\x7b2\x7d:\d\x7b2\x7d(?:\.\d\x7b3\x7d)?Z?)\s*\[?([A-Z]+)\]?\s*(.*)$` -/
def isoWithLevel : LogPattern :=
  { name := "ISO with level"
    re := rSeq
      [Re.group 1 (rSeq [rD4, rLit '-', rD2, rLit '-', rD2, rLit 'T', rHms,
        rMillis, Re.opt (rLit 'Z')]),
       Re.star rWs, Re.opt (rLit '['), Re.group 2 (rPlus rUpper),
       Re.opt (rLit ']'), Re.star rWs, Re.group 3 (Re.star rDot)]
    anchoredEnd := true
    gTimestamp := some 1, gLevel := some 2, gMessage := some 3
    gSource := none, gThread := none }

/-- The source's `^(\d\x7b4\x7d-\d\x7b2\x7d-\d\x7b2\x7d\s+\d\x7b2\x7d:\d\x7b2\x7d:\d\x7b2\x7d(?:\.\d\x7b3\x7d)?)\s+([A-Z]+)\s+(.*)$` -/
def standardFormat : LogPattern :=
  { name := "Standard format"
    re := rSeq
      [Re.group 1 (rSeq [rD4, rLit '-', rD2, rLit '-', rD2, rPlus rWs, rHms,
        rMillis]),
       rPlus rWs, Re.group 2 (rPlus rUpper), rPlus rWs,
       Re.group 3 (Re.star rDot)]
    anchoredEnd := true
    gTimestamp := some 1, gLevel := some 2, gMessage := some 3
    gSource := none, gThread := none }

/-- The source's `^([A-Z][a-z]\x7b2\x7d\s+\d\x7b1,2\x7d\s+\d\x7b2\x7d:\d\x7b2\x7d:\d\x7b2\x7d)\s+(\w+)\s+([^:]+):\s*(.*)$` -/
def syslogFormat : LogPattern :=
  { name := "Syslog format"
    re := rSeq
      [Re.group 1 (rSeq [rUpper, rRep 2 rLower, rPlus rWs, rDigit,
        Re.opt rDigit, rPlus rWs, rHms]),
       rPlus rWs, Re.group 2 (rPlus rWord), rPlus rWs,
       Re.group 3 (rPlus (rNot ':')), rLit ':', Re.star rWs,
       Re.group 4 (Re.star rDot)]
    anchoredEnd := true
    gTimestamp := some 1, gLevel := none, gMessage := some 4
    gSource := some 2, gThread := some 3 }

/-- The source's `^(\S+)\s+\S+\s+\S+\s+\[([^\]]+)\]\s+"([^"]*)"?\s+(\d+)\s+(\S+)(?:\s+"([^"]*)")?(?:\s+"([^"]*)")?` (no `$`). -/
def apacheAccess : LogPattern :=
  { name := "Apache access"
    re := rSeq
      [Re.group 1 (rPlus rNonWs), rPlus rWs, rPlus rNonWs, rPlus rWs,
       rPlus rNonWs, rPlus rWs, rLit '[', Re.group 2 (rPlus (rNot ']')),
       rLit ']', rPlus rWs, rLit '"', Re.group 3 (Re.star (rNot '"')),
       Re.opt (rLit '"'), rPlus rWs, Re.group 4 (rPlus rDigit), rPlus rWs,
       Re.group 5 (rPlus rNonWs),
       Re.opt (rSeq [rPlus rWs, rLit '"', Re.group 6 (Re.star (rNot '"')),
         rLit '"']),
       Re.opt (rSeq [rPlus rWs, rLit '"', Re.group 7 (Re.star (rNot '"')),
         rLit '"'])]
    anchoredEnd := false
    gTimestamp := some 2, gLevel := some 4, gMessage := some 3
    gSource := some 1, gThread := none }

/-- The source's `^(\x7b.*\x7d)$` — the registry's own JSON-shape entry. -/
def jsonShape : LogPattern :=
  { name := "JSON format"
    re := Re.group 1 (rSeq [rLit (Char.ofNat 123), Re.star rDot,
      rLit (Char.ofNat 125)])
    anchoredEnd := true
    gTimestamp := none, gLevel := none, gMessage := some 1
    gSource := none, gThread := none }

/-- The source's `^\[(\d\x7b2\x7d:\d\x7b2\x7d:\d\x7b2\x7d(?:\.\d\x7b3\x7d)?)\]\s*(.*)$` -/
def simpleTimestamp : LogPattern :=
  { name := "Simple timestamp"
    re := rSeq
      [rLit '[', Re.group 1 (Re.seq rHms rMillis), rLit ']', Re.star rWs,
       Re.group 2 (Re.star rDot)]
    anchoredEnd := true
    gTimestamp := some 1, gLevel := none, gMessage := some 2
    gSource := none, gThread := none }

/-- The ordered pattern registry of the source (`LOG_PATTERNS`). -/
def LOG_PATTERNS : List LogPattern :=
  [isoWithLevel, standardFormat, syslogFormat, apacheAccess, jsonShape,
   simpleTimestamp]

/-- The source's `line.match(pattern.regex)` for one registry entry. -/
def runPattern (p : LogPattern) (line : String) : Option Caps :=
  if p.anchoredEnd then reRunAnchored p.re line else reRunPre p.re line

/-- The registry walk: the first pattern that matches, with its captures. -/
def firstMatch : List LogPattern → String → Option (LogPattern × Caps)
  | [], _ => none
  | p :: rest, line =>
    match runPattern p line with
    | some caps => some (p, caps)
    | none => firstMatch rest line

/-! ## Dates and the timestamp normalizer

`Clock` models the ambient `new Date()` used by `parseTimestamp`:
`year` is `getFullYear()` and `today` the date part of `toISOString()`.
`JsDate` models a valid JavaScript `Date`: either calendar components
parsed from a string, or an epoch value from a numeric argument (kept as
its lexeme; no claim depends on epoch arithmetic). -/

structure Clock where
  year : Nat
  today : String

inductive JsDate where
  | cal : Nat → Nat → Nat → Nat → Nat → Nat → Nat → JsDate
  | epochMs : String → JsDate

def isLeap (y : Nat) : Bool :=
  ((y % 4 = 0) && !(y % 100 = 0)) || (y % 400 = 0)

def daysInMonth (y mo : Nat) : Nat :=
  if mo = 2 then (if isLeap y then 29 else 28)
  else if mo = 4 ∨ mo = 6 ∨ mo = 9 ∨ mo = 11 then 30
  else 31

/-- A calendar `Date` value, or `none` for NaN (`Invalid Date`). -/
def mkValidDate (y mo d hh mi ss ms : Nat) : Option JsDate :=
  if 1 ≤ mo ∧ mo ≤ 12 ∧ 1 ≤ d ∧ d ≤ daysInMonth y mo ∧ hh ≤ 23 ∧ mi ≤ 59 ∧
      ss ≤ 59 then
    some (JsDate.cal y mo d hh mi ss ms)
  else none

/-- Read exactly `n` decimal digits. -/
def readDigitsAux (acc : Nat) : Nat → List Char → Option (Nat × List Char)
  | 0, cs => some (acc, cs)
  | _ + 1, [] => none
  | n + 1, c :: cs =>
    if c.isDigit then readDigitsAux (acc * 10 + (c.toNat - '0'.toNat)) n cs
    else none

def readDigits (n : Nat) (cs : List Char) : Option (Nat × List Char) :=
  readDigitsAux 0 n cs

/-- Read one or two decimal digits (a syslog day). -/
def readDay (cs : List Char) : Option (Nat × List Char) :=
  match cs with
  | c :: c2 :: rest =>
    if c.isDigit then
      if c2.isDigit then
        some ((c.toNat - '0'.toNat) * 10 + (c2.toNat - '0'.toNat), rest)
      else some (c.toNat - '0'.toNat, c2 :: rest)
    else none
  | [c] => if c.isDigit then some (c.toNat - '0'.toNat, []) else none
  | [] => none

def monthOfName (a b c : Char) : Option Nat :=
  let s : String := String.mk [a, b, c]
  if s = "Jan" then some 1 else if s = "Feb" then some 2
  else if s = "Mar" then some 3 else if s = "Apr" then some 4
  else if s = "May" then some 5 else if s = "Jun" then some 6
  else if s = "Jul" then some 7 else if s = "Aug" then some 8
  else if s = "Sep" then some 9 else if s = "Oct" then some 10
  else if s = "Nov" then some 11 else if s = "Dec" then some 12
  else none

/-- Read `HH:MM[:SS[.mmm]]`. -/
def readTime (cs : List Char) : Option (Nat × Nat × Nat × Nat × List Char) :=
  match readDigits 2 cs with
  | none => none
  | some (hh, rest1) =>
    match rest1 with
    | ':' :: rest2 =>
      match readDigits 2 rest2 with
      | none => none
      | some (mi, rest3) =>
        match rest3 with
        | ':' :: rest4 =>
          match readDigits 2 rest4 with
          | none => none
          | some (ss, rest5) =>
            match rest5 with
            | '.' :: rest6 =>
              match readDigits 3 rest6 with
              | none => none
              | some (ms, rest7) => some (hh, mi, ss, ms, rest7)
            | _ => some (hh, mi, ss, 0, rest5)
        | _ => some (hh, mi, 0, 0, rest3)
    | _ => none

/-- An optional trailing timezone designator: `Z`, or `±HHMM` possibly
preceded by whitespace.  Returns the remaining input, or `none` when the
suffix is present but malformed. -/
def skipZone (cs : List Char) : Option (List Char) :=
  match cs with
  | [] => some []
  | 'Z' :: rest => some rest
  | _ =>
    let cs1 := cs.dropWhile jsWs
    match cs1 with
    | s :: rest =>
      if s = '+' ∨ s = '-' then
        match readDigits 4 rest with
        | some (_, rest2) => some rest2
        | none => none
      else none
    | [] => some []

/-- A model of the host `new Date(string)` parser for the shapes the
normalizer feeds it: ISO `YYYY-MM-DD[(T| )HH:MM[:SS[.mmm]]][Z]`, the
year-prefixed syslog shape `YYYY Mon D[D] HH:MM:SS`, and the reordered
Apache shape `YYYY-Mon-DD HH:MM:SS [±HHMM]`.  Other strings are treated
as unparseable; out-of-range components give `Invalid Date` (`none`). -/
def jsNewDate (s : String) : Option JsDate :=
  match readDigits 4 s.data with
  | none => none
  | some (y, rest0) =>
    match rest0 with
    | '-' :: rest1 =>
      match readDigits 2 rest1 with
      | some (mo, rest2) =>
        match rest2 with
        | '-' :: rest3 =>
          match readDigits 2 rest3 with
          | none => none
          | some (d, rest4) =>
            match rest4 with
            | [] => mkValidDate y mo d 0 0 0 0
            | sep :: rest5 =>
              if sep = 'T' ∨ sep = ' ' then
                match readTime rest5 with
                | none => none
                | some (hh, mi, ss, ms, rest6) =>
                  match skipZone rest6 with
                  | some [] => mkValidDate y mo d hh mi ss ms
                  | _ => none
              else none
        | _ => none
      | none =>
        match rest1 with
        | a :: b :: c :: '-' :: rest2 =>
          match monthOfName a b c with
          | none => none
          | some mo =>
            match readDigits 2 rest2 with
            | none => none
            | some (d, rest3) =>
              match rest3 with
              | ' ' :: rest4 =>
                match readTime rest4 with
                | none => none
                | some (hh, mi, ss, ms, rest5) =>
                  match skipZone rest5 with
                  | some [] => mkValidDate y mo d hh mi ss ms
                  | _ => none
              | [] => mkValidDate y mo d 0 0 0 0
              | _ => none
        | _ => none
    | ' ' :: rest1 =>
      match rest1.dropWhile jsWs with
      | a :: b :: c :: rest2 =>
        match monthOfName a b c with
        | none => none
        | some mo =>
          match (rest2.dropWhile jsWs) with
          | rest3 =>
            match readDay rest3 with
            | none => none
            | some (d, rest4) =>
              match rest4.dropWhile jsWs with
              | rest5 =>
                match readTime rest5 with
                | none => none
                | some (hh, mi, ss, ms, rest6) =>
                  match skipZone rest6 with
                  | some [] => mkValidDate y mo d hh mi ss ms
                  | _ => none
      | _ => none
    | _ => none

/-- The source's `/(\d\x7b2\x7d)\/([A-Z][a-z]\x7b2\x7d)\/(\d\x7b4\x7d):/` — the Apache
date prefix rewritten by `parseTimestamp`'s fourth strategy. -/
def apacheDateRe : Re :=
  rSeq [Re.group 1 rD2, rLit '/',
    Re.group 2 (Re.seq rUpper (rRep 2 rLower)), rLit '/',
    Re.group 3 rD4, rLit ':']

/-- The source's `ts.replace(apacheDateRe, "$3-$2-$1 ")`: rewrite the first occurrence
anywhere in the string, as JavaScript `replace` does for a non-global
regex. -/
def replaceFirstApache : List Char → Option (List Char)
  | [] => none
  | c :: rest =>
    match reRunPreRem apacheDateRe (c :: rest) with
    | some (caps, rem) =>
      some (((capGet caps 3).getD "").data ++ '-' ::
        (((capGet caps 2).getD "").data ++ '-' ::
          (((capGet caps 1).getD "").data ++ ' ' :: rem)))
    | none => (replaceFirstApache rest).map (fun l => c :: l)

def apacheReorder (s : String) : String :=
  match replaceFirstApache s.data with
  | some l => String.mk l
  | none => s

/-- The source's `/^\d\x7b2\x7d:\d\x7b2\x7d:\d\x7b2\x7d/.test(ts)` -/
def timeHead (ts : String) : Bool := (reRunPre rHms ts).isSome

/-- The Timestamp Normalizer (`parseTimestamp`): try the interpretation
strategies of the source in order, returning the first valid date.  The
first two entries of the source's `formats` array are both `new Date(ts)`,
so the duplicate is kept.  A strategy that throws or yields an invalid
date is skipped (`none` here). -/
def parseTimestamp (now : Clock) (ts : String) : Option JsDate :=
  if ts = "" then none
  else
    match jsNewDate ts with
    | some d => some d
    | none =>
      match jsNewDate ts with
      | some d => some d
      | none =>
        match jsNewDate (toString now.year ++ " " ++ ts) with
        | some d => some d
        | none =>
          match jsNewDate (apacheReorder ts) with
          | some d => some d
          | none =>
            if timeHead ts then jsNewDate (now.today ++ "T" ++ ts)
            else none

/-- The source's `parseTimestamp` applied to a raw JSON value (the full-line JSON path
passes `json.timestamp || ...` without stringifying).  `new Date(number)`
interprets the number as epoch milliseconds; `new Date(true)` is the
1-millisecond date; other non-string arguments are modelled as
unparseable. -/
def parseTimestampJson (now : Clock) (v : Json) : Option JsDate :=
  match v with
  | Json.str s => parseTimestamp now s
  | Json.num lex => some (JsDate.epochMs lex)
  | Json.bool b => if b then some (JsDate.epochMs "1") else none
  | _ => none

/-! ## Records and the per-line interpreters -/

structure LogEntry where
  id : String
  timestamp : Option JsDate := none
  level : Option String := none
  message : String
  rawLine : String
  lineNumber : Nat
  source : Option String := none
  thread : Option String := none
  metadata : Option Json := none

structure ParsedLog where
  entries : List LogEntry
  totalLines : Nat
  filename : String
  detectedFormat : String

/-- JS truthiness of a `string | undefined` field. -/
def optTruthyStr : Option String → Bool
  | none => false
  | some s => s != ""

def LOG_LEVELS : List String := ["FATAL", "ERROR", "WARN", "INFO", "DEBUG", "TRACE"]

def detectGo (upperText : String) : List String → Option String
  | [] => none
  | l :: rest => if containsSub l upperText then some l else detectGo upperText rest

/-- The Level Heuristic Scanner (`detectLogLevel`): first of the six level
words, in priority order, occurring anywhere in the upper-cased text. -/
def detectLogLevel (text : String) : Option String :=
  detectGo (upperS text) LOG_LEVELS

/-- The Summary Builder (`buildSummary` inside `parseJsonLog`). -/
def buildSummary (j : Json) : String :=
  let moduleName := pickJson j ["module", "service", "source", "logger"]
  let feature := pickJson j ["feature", "action", "event", "endpoint"]
  let typ := pickJson j ["type", "category"]
  let status := pickJson j ["status", "statusCode", "code"]
  let msg := pickJson j ["message", "msg", "text"]
  let parts : List String :=
    (match moduleName with
     | some v => if jsTruthy v then [jsToString v] else []
     | none => []) ++
    (match feature with
     | some v => if jsTruthy v then [jsToString v] else []
     | none => []) ++
    (match typ with
     | some tv =>
       if jsTruthy tv then
         match msg with
         | some mv =>
           if jsTruthy mv then
             if lowerS (jsToString tv) != lowerS (jsToString mv) then
               [jsToString tv]
             else []
           else [jsToString tv]
         | none => [jsToString tv]
       else []
     | none => []) ++
    (match status with
     | some v => if jsTruthy v then [jsToString v] else []
     | none => [])
  let head := joinSep " • " (parts.filter (fun s => s != ""))
  match msg with
  | some mv =>
    if jsTruthy mv && (head != "") then head ++ " — " ++ jsToString mv
    else if head != "" then head
    else if jsTruthy mv then jsToString mv
    else "Log entry"
  | none => if head != "" then head else "Log entry"

/-- The source's `json.level?.toUpperCase()`: optional chaining passes a missing or
`null` value through as `undefined`; calling `toUpperCase` on any other
non-string value throws a `TypeError`, which the `try` around the whole of
`parseJsonLog` turns into a `null` result for the line — the outer `none`
here. -/
def levelOfJson (j : Json) : Option (Option String) :=
  match jsLookup j "level" with
  | none => some none
  | some Json.null => some none
  | some (Json.str s) => some (some (upperS s))
  | some _ => none

/-- The Full-Line JSON Interpreter (`parseJsonLog`). -/
def parseJsonLog (now : Clock) (line : String) (lineNumber : Nat) : Option LogEntry :=
  match jsonParse line with
  | none => none
  | some json =>
    match levelOfJson json with
    | none => none
    | some lvl =>
      let tsv := jsOrChain json ["timestamp", "@timestamp", "time", "ts"]
      let srcv := jsOrChain json ["source", "logger", "module", "service"]
      let thrv := jsOrChain json ["thread", "process", "correlationId"]
      let summaryMessage := buildSummary json
      some
        { id := "line-" ++ toString lineNumber
          timestamp :=
            match tsv with
            | some v => if jsTruthy v then parseTimestampJson now v else none
            | none => none
          level := lvl
          message := if summaryMessage = "" then "Log entry" else summaryMessage
          rawLine := line
          lineNumber := lineNumber
          source := match srcv with | some (Json.str s) => some s | _ => none
          thread := match thrv with | some (Json.str s) => some s | _ => none
          metadata := some json }

/-- The six-level vocabulary of `coerceLevel`. -/
def allowedLevels : List String := ["FATAL", "ERROR", "WARN", "INFO", "DEBUG", "TRACE"]

/-- The source's `coerceLevel`: falsy values are discarded, anything else is
stringified, upper-cased and kept only when in the vocabulary. -/
def coerceLevel (val : Option Json) : Option String :=
  match val with
  | none => none
  | some v =>
    if !(jsTruthy v) then none
    else
      let s := upperS (jsToString v)
      if allowedLevels.contains s then some s else none

/-- The scanning loop of `extractFirstJsonObject`: a depth-counting walk
that tracks string literals and backslash escapes; when the depth returns
to zero the candidate slice is parsed, and a parse failure abandons the
whole extraction (the source returns `null` there, it does not keep
scanning). -/
def braceScan (full : List Char) (startIdx : Nat) :
    Nat → List Char → Bool → Bool → Nat → Option (Json × Nat × Nat)
  | _, [], _, _, _ => none
  | i, c :: rest, inStr, esc, depth =>
    if inStr then
      if esc then braceScan full startIdx (i + 1) rest true false depth
      else if c = '\\' then braceScan full startIdx (i + 1) rest true true depth
      else if c = '"' then braceScan full startIdx (i + 1) rest false false depth
      else braceScan full startIdx (i + 1) rest true false depth
    else
      if c = '"' then braceScan full startIdx (i + 1) rest true false depth
      else
        let depth1 := if c = Char.ofNat 123 then depth + 1 else depth
        if c = Char.ofNat 125 then
          if depth1 - 1 = 0 then
            let candidate := (full.drop startIdx).take (i + 1 - startIdx)
            match jsonParse (String.mk candidate) with
            | some json => some (json, startIdx, i)
            | none => none
          else braceScan full startIdx (i + 1) rest false false (depth1 - 1)
        else braceScan full startIdx (i + 1) rest false false depth1

/-- The Embedded-JSON Extractor's scanner (`extractFirstJsonObject`). -/
def extractFirstJsonObject (text : String) : Option (Json × Nat × Nat) :=
  if text = "" then none
  else
    match idxOfLbrace text.data 0 with
    | none => none
    | some startIdx =>
      braceScan text.data startIdx startIdx (text.data.drop startIdx) false false 0

/-- The candidate-key lists used by the embedded-JSON backfill. -/
def tsKeys : List String := ["timestamp", "@timestamp", "time", "ts"]

def levelKeys : List String := ["level", "severity", "lvl"]

def sourceKeys : List String := ["source", "logger", "module", "service"]

def threadKeys : List String := ["thread", "process", "correlationId"]

/-- The source's `if (!entry.timestamp) \x7b ... entry.timestamp = parseTimestamp(String(ts)) \x7d`. -/
def backfillTimestamp (now : Clock) (json : Json) (e : LogEntry) : LogEntry :=
  if e.timestamp.isSome then e
  else
    match pickJson json tsKeys with
    | some (Json.str s) => { e with timestamp := parseTimestamp now s }
    | some (Json.num lex) => { e with timestamp := parseTimestamp now lex }
    | _ => e

/-- The source's `if (!entry.level) \x7b const lvl = coerceLevel(pick(json, ["level", "severity", "lvl"])); if (lvl) entry.level = lvl \x7d`. -/
def backfillLevel (json : Json) (e : LogEntry) : LogEntry :=
  if optTruthyStr e.level then e
  else
    match coerceLevel (pickJson json levelKeys) with
    | some lvl => { e with level := some lvl }
    | none => e

/-- The source's `if (!entry.source) \x7b const src = pick(...); if (typeof src === "string") entry.source = src \x7d`. -/
def backfillSource (json : Json) (e : LogEntry) : LogEntry :=
  if optTruthyStr e.source then e
  else
    match pickJson json sourceKeys with
    | some (Json.str s) => { e with source := some s }
    | _ => e

def backfillThread (json : Json) (e : LogEntry) : LogEntry :=
  if optTruthyStr e.thread then e
  else
    match pickJson json threadKeys with
    | some (Json.str s) => { e with thread := some s }
    | _ => e

/-- The "derive a cleaner message" block of the embedded-JSON enrichment
(same summary rules as 4.5, but with no "Log entry" default and with the
message candidate passed through a truthiness check first). -/
def derivedMessage (json : Json) : Option String :=
  let messageVal := pickJson json ["message", "msg", "text"]
  let summary : Option String :=
    match messageVal with
    | some v => if jsTruthy v then some (jsToString v) else none
    | none => none
  let moduleName := pickJson json ["module", "service", "source", "logger"]
  let feature := pickJson json ["feature", "action", "event", "endpoint"]
  let typ := pickJson json ["type", "category"]
  let status := pickJson json ["status", "statusCode", "code"]
  let headParts : List String :=
    (match moduleName with
     | some v => if jsTruthy v then [jsToString v] else []
     | none => []) ++
    (match feature with
     | some v => if jsTruthy v then [jsToString v] else []
     | none => []) ++
    (match typ with
     | some tv =>
       if jsTruthy tv then
         match summary with
         | some sm =>
           if sm = "" then [jsToString tv]
           else if lowerS (jsToString tv) != lowerS sm then [jsToString tv]
           else []
         | none => [jsToString tv]
       else []
     | none => []) ++
    (match status with
     | some v => if jsTruthy v then [jsToString v] else []
     | none => [])
  let head := joinSep " • " (headParts.filter (fun s => s != ""))
  match summary with
  | some sm =>
    if sm != "" && head != "" then some (head ++ " — " ++ sm)
    else if head != "" then some head
    else some sm
  | none => if head != "" then some head else none

/-- The message rewrite at the end of the enrichment: use the derived
summary when truthy, otherwise the trimmed free text before or after the
extracted JSON span, otherwise the literal `"Log entry"`. -/
def rewriteMessage (json : Json) (startIdx endIdx : Nat) (e : LogEntry) : LogEntry :=
  let before := trimS (String.mk (e.message.data.take startIdx))
  let after := trimS (String.mk (e.message.data.drop (endIdx + 1)))
  let fallbackMsg :=
    if before != "" then before else if after != "" then after else "Log entry"
  match derivedMessage json with
  | some d =>
    if d != "" then { e with message := d } else { e with message := fallbackMsg }
  | none => { e with message := fallbackMsg }

/-- The whole enrichment applied once an embedded object has been found:
set metadata, backfill the four absent fields, rewrite the message. -/
def applyExtracted (now : Clock) (json : Json) (startIdx endIdx : Nat)
    (e : LogEntry) : LogEntry :=
  rewriteMessage json startIdx endIdx
    (backfillThread json
      (backfillSource json
        (backfillLevel json
          (backfillTimestamp now json { e with metadata := some json }))))

/-- Step 4 of the driver: `if (entry && !entry.metadata) \x7b ... \x7d`. -/
def enrichEntry (now : Clock) (e : LogEntry) : LogEntry :=
  match e.metadata with
  | some _ => e
  | none =>
    match extractFirstJsonObject e.message with
    | none => e
    | some (json, startIdx, endIdx) => applyExtracted now json startIdx endIdx e

/-- The record built from a registry match (the pattern-loop body of
`parseLogFile`).  Every registry pattern has a message group that
participates in any successful match, so the `getD ""` default for a
non-participating message group is unreachable. -/
def entryFromPattern (now : Clock) (p : LogPattern) (caps : Caps)
    (line : String) (n : Nat) : LogEntry :=
  { id := "line-" ++ toString n
    timestamp :=
      match p.gTimestamp with
      | some g =>
        match capGet caps g with
        | some ts => parseTimestamp now ts
        | none => none
      | none => none
    level :=
      match p.gLevel with
      | some g => (capGet caps g).map upperS
      | none => detectLogLevel line
    message :=
      match p.gMessage with
      | some g => (capGet caps g).getD ""
      | none => line
    rawLine := line
    lineNumber := n
    source := match p.gSource with | some g => capGet caps g | none => none
    thread := match p.gThread with | some g => capGet caps g | none => none
    metadata := none }

/-- The plain-text fallback record. -/
def plainTextEntry (line : String) (n : Nat) : LogEntry :=
  { id := "line-" ++ toString n
    level := detectLogLevel line
    message := line
    rawLine := line
    lineNumber := n }

/-- The source's `line.startsWith("\x7b")`. -/
def lineStartsLbrace (s : String) : Bool :=
  match s.data with
  | [] => false
  | c :: _ => c = Char.ofNat 123

/-- Steps 2–3 of the driver: full-line JSON first (only for lines starting
with a brace), then the registry walk, then the plain-text fallback; each
path also names the detected format it sets. -/
def classifyLine (now : Clock) (line : String) (n : Nat) : LogEntry × String :=
  match (if lineStartsLbrace line then parseJsonLog now line n else none) with
  | some e => (e, "JSON format")
  | none =>
    match firstMatch LOG_PATTERNS line with
    | some (p, caps) => (entryFromPattern now p caps line n, p.name)
    | none => (plainTextEntry line n, "Plain text")

/-- One full loop iteration for a non-blank trimmed line: classification
followed by embedded-JSON enrichment. -/
def processLine (now : Clock) (line : String) (n : Nat) : LogEntry × String :=
  (enrichEntry now (classifyLine now line n).1, (classifyLine now line n).2)

/-- The driver loop over the split lines, carrying the running
detected-format label; `idx` is the zero-based position of the head of
`lines` in the original split. -/
def runLines (now : Clock) : List String → Nat → String → List LogEntry × String
  | [], _, fmt => ([], fmt)
  | l :: rest, idx, fmt =>
    if trimS l = "" then runLines now rest (idx + 1) fmt
    else
      let pe := processLine now (trimS l) (idx + 1)
      let r := runLines now rest (idx + 1) pe.2
      (pe.1 :: r.1, r.2)

/-- The parse entrypoint (`parseLogFile`), with the ambient clock passed
explicitly. -/
def parseLogFile (now : Clock) (content : String) (filename : String) : ParsedLog :=
  let lines := jsSplit content
  let r := runLines now lines 0 "Unknown"
  { entries := r.1
    totalLines := lines.length
    filename := filename
    detectedFormat := r.2 }

/-- The reference clock used by the concrete evaluations below. -/
def refClock : Clock := { year := 2024, today := "2024-01-15" }

/-- Replace the two position-derived fields of a record.  Every per-line
computation of the driver depends on the line number only through these
two fields, which is what makes re-parsing a `rawLine` reproduce the
record's content. -/
def withIdLn (e : LogEntry) (n : Nat) : LogEntry :=
  { e with id := "line-" ++ toString n, lineNumber := n }

/-- A record with every optional field present (used to evaluate the
frame properties of the enrichment at a concrete input). -/
def wEntry : LogEntry :=
  { id := "w", timestamp := some (JsDate.cal 2024 1 15 10 0 0 0),
    level := some "INFO", message := "steady state", rawLine := "steady state",
    lineNumber := 3, source := some "core", thread := some "main",
    metadata := none }

/-- The record produced for the single plain-text line `hello`. -/
def wHelloEntry : LogEntry :=
  { id := "line-1", message := "hello", rawLine := "hello", lineNumber := 1 }

/-- The record produced for the single plain-text line `  padded`. -/
def wPaddedEntry : LogEntry :=
  { id := "line-1", message := "padded", rawLine := "padded", lineNumber := 1 }

/-- Two JSON objects agreeing on every backfill candidate key but not on
the extra key. -/
def wJsonA : Json :=
  Json.obj [("severity", Json.str "warn"), ("extra", Json.num "1")]

def wJsonB : Json := Json.obj [("severity", Json.str "warn")]

/-! ## Helper lemmas: trimming and splitting -/

theorem dropL_spec (l : List Char) :
    dropL l = [] ∨ ∃ c r, dropL l = c :: r ∧ jsWs c = false := by
  induction l with
  | nil => left; rfl
  | cons c r ih =>
    cases hc : jsWs c with
    | true => simpa [dropL, hc] using ih
    | false => right; exact ⟨c, r, by simp [dropL, hc], hc⟩

theorem dropL_eq_self (l : List Char)
    (h : l = [] ∨ ∃ c r, l = c :: r ∧ jsWs c = false) : dropL l = l := by
  rcases h with h | ⟨c, r, h, hc⟩ <;> subst h
  · rfl
  · simp [dropL, hc]

theorem dropL_idem (l : List Char) : dropL (dropL l) = dropL l :=
  dropL_eq_self _ (dropL_spec l)

theorem dropL_getLast? (l : List Char) (h : dropL l ≠ []) :
    (dropL l).getLast? = l.getLast? := by
  induction l with
  | nil => simp [dropL] at h
  | cons c r ih =>
    cases hc : jsWs c with
    | false => simp [dropL, hc]
    | true =>
      simp only [dropL, hc, if_pos] at h ⊢
      rw [ih h]
      cases r with
      | nil => simp [dropL] at h
      | cons d s => simp

theorem mem_dropL {c : Char} {l : List Char} (h : c ∈ dropL l) : c ∈ l := by
  induction l with
  | nil => simp [dropL] at h
  | cons d r ih =>
    cases hd : jsWs d with
    | true =>
      simp only [dropL, hd, if_pos] at h
      exact List.mem_cons_of_mem d (ih h)
    | false => simpa [dropL, hd] using h

theorem mem_trimL {c : Char} {l : List Char} (h : c ∈ trimL l) : c ∈ l := by
  unfold trimL at h
  rw [List.mem_reverse] at h
  have h2 := mem_dropL h
  rw [List.mem_reverse] at h2
  exact mem_dropL h2

theorem dropL_reverse_dropL_reverse (l : List Char) :
    dropL ((dropL ((dropL l).reverse)).reverse) = (dropL ((dropL l).reverse)).reverse := by
  apply dropL_eq_self
  rcases hrev : (dropL ((dropL l).reverse)).reverse with _ | ⟨c, cs⟩
  · left; rfl
  · right
    refine ⟨c, cs, rfl, ?_⟩
    have hBne : dropL ((dropL l).reverse) ≠ [] := by
      intro h0
      rw [h0] at hrev
      simp at hrev
    have hc : ((dropL ((dropL l).reverse)).reverse).head? = some c := by
      rw [hrev]; rfl
    rw [List.head?_reverse, dropL_getLast? _ hBne, List.getLast?_reverse] at hc
    rcases dropL_spec l with hA | ⟨a, as, hA, ha⟩
    · rw [hA] at hc; simp at hc
    · rw [hA] at hc
      simp at hc
      rw [← hc]
      exact ha

theorem trimL_idem (l : List Char) : trimL (trimL l) = trimL l := by
  unfold trimL
  rw [dropL_reverse_dropL_reverse l, List.reverse_reverse, dropL_idem]

theorem splitNlL_ne_nil (l : List Char) : splitNlL l ≠ [] := by
  cases l with
  | nil => simp [splitNlL]
  | cons c r =>
    simp only [splitNlL]
    split
    · simp
    · split <;> simp

theorem splitNlL_no_nl {p : List Char} {l : List Char} (h : p ∈ splitNlL l) :
    '\n' ∉ p := by
  induction l generalizing p with
  | nil =>
    simp [splitNlL] at h
    simp [h]
  | cons c r ih =>
    by_cases hc : c = '\n'
    · subst hc
      simp only [splitNlL, if_pos rfl] at h
      rcases List.mem_cons.mp h with h | h
      · simp [h]
      · exact ih h
    · simp only [splitNlL, if_neg hc] at h
      rcases hr : splitNlL r with _ | ⟨h0, t0⟩
      · exact absurd hr (splitNlL_ne_nil r)
      · rw [hr] at h
        rcases List.mem_cons.mp h with h | h
        · subst h
          intro hmem
          rcases List.mem_cons.mp hmem with h | h
          · exact hc h.symm
          · exact ih (hr ▸ List.mem_cons_self h0 t0) h
        · exact ih (hr ▸ List.mem_cons_of_mem h0 h)

theorem splitNlL_single {l : List Char} (h : '\n' ∉ l) : splitNlL l = [l] := by
  induction l with
  | nil => rfl
  | cons c r ih =>
    have hc : c ≠ '\n' := fun hx => h (hx ▸ List.mem_cons_self c r)
    have hr : '\n' ∉ r := fun hx => h (List.mem_cons_of_mem c hx)
    simp only [splitNlL, if_neg hc, ih hr]

/-! ## Helper lemmas: shapes of the enrichment steps

Each backfill step only replaces its own field, and leaves it unchanged
when the field was already truthy. -/

theorem bfTs_shape (now : Clock) (j : Json) (e : LogEntry) :
    ∃ ts, backfillTimestamp now j e = { e with timestamp := ts } ∧
      (e.timestamp.isSome = true → ts = e.timestamp) := by
  unfold backfillTimestamp
  split
  · exact ⟨e.timestamp, rfl, fun _ => rfl⟩
  next h =>
    split
    · exact ⟨_, rfl, fun hs => absurd hs h⟩
    · exact ⟨_, rfl, fun hs => absurd hs h⟩
    · exact ⟨e.timestamp, rfl, fun _ => rfl⟩

theorem bfLvl_shape (j : Json) (e : LogEntry) :
    ∃ lv, backfillLevel j e = { e with level := lv } ∧
      (optTruthyStr e.level = true → lv = e.level) := by
  unfold backfillLevel
  split
  · exact ⟨e.level, rfl, fun _ => rfl⟩
  next h =>
    split
    · exact ⟨_, rfl, fun hs => absurd hs h⟩
    · exact ⟨e.level, rfl, fun _ => rfl⟩

theorem bfSrc_shape (j : Json) (e : LogEntry) :
    ∃ src, backfillSource j e = { e with source := src } ∧
      (optTruthyStr e.source = true → src = e.source) := by
  unfold backfillSource
  split
  · exact ⟨e.source, rfl, fun _ => rfl⟩
  next h =>
    split
    · exact ⟨_, rfl, fun hs => absurd hs h⟩
    · exact ⟨e.source, rfl, fun _ => rfl⟩

theorem bfThr_shape (j : Json) (e : LogEntry) :
    ∃ thr, backfillThread j e = { e with thread := thr } ∧
      (optTruthyStr e.thread = true → thr = e.thread) := by
  unfold backfillThread
  split
  · exact ⟨e.thread, rfl, fun _ => rfl⟩
  next h =>
    split
    · exact ⟨_, rfl, fun hs => absurd hs h⟩
    · exact ⟨e.thread, rfl, fun _ => rfl⟩

theorem rwMsg_shape (json : Json) (startIdx endIdx : Nat) (e : LogEntry) :
    ∃ m, rewriteMessage json startIdx endIdx e = { e with message := m } ∧
      m ≠ "" := by
  unfold rewriteMessage
  split
  next d hd =>
    split
    next hne => exact ⟨d, rfl, by simpa using hne⟩
    next hne =>
      refine ⟨_, rfl, ?_⟩
      split
      next h1 => simpa using h1
      · split
        next h2 => simpa using h2
        · decide
  next =>
    refine ⟨_, rfl, ?_⟩
    split
    next h1 => simpa using h1
    · split
      next h2 => simpa using h2
      · decide

theorem applyExtracted_shape (now : Clock) (json : Json) (startIdx endIdx : Nat)
    (e : LogEntry) :
    ∃ ts lv src thr m,
      applyExtracted now json startIdx endIdx e =
        { e with metadata := some json, timestamp := ts, level := lv,
                 source := src, thread := thr, message := m } ∧
      (e.timestamp.isSome = true → ts = e.timestamp) ∧
      (optTruthyStr e.level = true → lv = e.level) ∧
      (optTruthyStr e.source = true → src = e.source) ∧
      (optTruthyStr e.thread = true → thr = e.thread) ∧
      m ≠ "" := by
  obtain ⟨ts, h1, g1⟩ := bfTs_shape now json { e with metadata := some json }
  obtain ⟨lv, h2, g2⟩ := bfLvl_shape json
    { e with metadata := some json, timestamp := ts }
  obtain ⟨src, h3, g3⟩ := bfSrc_shape json
    { e with metadata := some json, timestamp := ts, level := lv }
  obtain ⟨thr, h4, g4⟩ := bfThr_shape json
    { e with metadata := some json, timestamp := ts, level := lv, source := src }
  obtain ⟨m, h5, g5⟩ := rwMsg_shape json startIdx endIdx
    { e with metadata := some json, timestamp := ts, level := lv, source := src,
             thread := thr }
  refine ⟨ts, lv, src, thr, m, ?_, g1, g2, g3, g4, g5⟩
  unfold applyExtracted
  rw [h1, h2, h3, h4, h5]

theorem enrich_shape (now : Clock) (e : LogEntry) :
    enrichEntry now e = e ∨
    ∃ json ts lv src thr m,
      enrichEntry now e =
        { e with metadata := some json, timestamp := ts, level := lv,
                 source := src, thread := thr, message := m } ∧
      (e.timestamp.isSome = true → ts = e.timestamp) ∧
      (optTruthyStr e.level = true → lv = e.level) ∧
      (optTruthyStr e.source = true → src = e.source) ∧
      (optTruthyStr e.thread = true → thr = e.thread) ∧
      m ≠ "" := by
  unfold enrichEntry
  split
  · exact Or.inl rfl
  · split
    · exact Or.inl rfl
    next json startIdx endIdx _ =>
      obtain ⟨ts, lv, src, thr, m, h, g1, g2, g3, g4, g5⟩ :=
        applyExtracted_shape now json startIdx endIdx e
      exact Or.inr ⟨json, ts, lv, src, thr, m, h, g1, g2, g3, g4, g5⟩

theorem enrich_frame (now : Clock) (e : LogEntry) :
    (enrichEntry now e).id = e.id ∧ (enrichEntry now e).rawLine = e.rawLine ∧
      (enrichEntry now e).lineNumber = e.lineNumber := by
  rcases enrich_shape now e with h | ⟨json, ts, lv, src, thr, m, h, -⟩ <;>
    rw [h] <;> exact ⟨rfl, rfl, rfl⟩

theorem enrich_of_metadata_some {now : Clock} {e : LogEntry} {j : Json}
    (h : e.metadata = some j) : enrichEntry now e = e := by
  unfold enrichEntry
  rw [h]

theorem enrich_message_shape (now : Clock) (e : LogEntry) :
    (enrichEntry now e).message = e.message ∨ (enrichEntry now e).message ≠ "" := by
  rcases enrich_shape now e with h | ⟨json, ts, lv, src, thr, m, h, -, -, -, -, hm⟩
  · rw [h]; exact Or.inl rfl
  · rw [h]; exact Or.inr hm

/-- The source's `pick` consults only the keys of its candidate list: objects agreeing
on those keys pick identically. -/
theorem pickJson_congr {j j' : Json} {keys : List String}
    (h : ∀ k ∈ keys, jsLookup j k = jsLookup j' k) :
    pickJson j keys = pickJson j' keys := by
  induction keys with
  | nil => rfl
  | cons k ks ih =>
    have hk := h k (List.mem_cons_self k ks)
    have ih' := ih fun k' hk' => h k' (List.mem_cons_of_mem k hk')
    simp only [pickJson]
    rw [hk]
    cases jsLookup j' k with
    | none => exact ih'
    | some v => cases v <;> first | rfl | exact ih'

/-! ## Helper lemmas: classification -/

theorem parseJsonLog_fields {now : Clock} {line : String} {n : Nat} {e : LogEntry}
    (h : parseJsonLog now line n = some e) :
    e.rawLine = line ∧ e.lineNumber = n ∧ e.message ≠ "" ∧
      e.metadata.isSome = true := by
  unfold parseJsonLog at h
  cases hj : jsonParse line with
  | none => rw [hj] at h; cases h
  | some j =>
    rw [hj] at h
    dsimp only at h
    cases hl : levelOfJson j with
    | none => rw [hl] at h; cases h
    | some lvl =>
      rw [hl] at h
      dsimp only at h
      injection h with h
      subst h
      refine ⟨rfl, rfl, ?_, rfl⟩
      show (if buildSummary j = "" then "Log entry" else buildSummary j) ≠ ""
      split
      · decide
      next hne => exact hne

theorem classify_fields (now : Clock) (t : String) (n : Nat) :
    ((classifyLine now t n).1).rawLine = t ∧
      ((classifyLine now t n).1).lineNumber = n := by
  unfold classifyLine
  cases hq : (if lineStartsLbrace t then parseJsonLog now t n else none) with
  | none =>
    cases hm : firstMatch LOG_PATTERNS t with
    | none => exact ⟨rfl, rfl⟩
    | some pc => exact ⟨rfl, rfl⟩
  | some e =>
    have hpj : parseJsonLog now t n = some e := by
      cases hb : lineStartsLbrace t with
      | false => rw [hb] at hq; simp at hq
      | true => rw [hb] at hq; simpa using hq
    obtain ⟨h1, h2, -, -⟩ := parseJsonLog_fields hpj
    exact ⟨h1, h2⟩

theorem processLine_fields (now : Clock) (t : String) (n : Nat) :
    ((processLine now t n).1).rawLine = t ∧
      ((processLine now t n).1).lineNumber = n := by
  obtain ⟨h1, h2⟩ := classify_fields now t n
  obtain ⟨-, h3, h4⟩ := enrich_frame now (classifyLine now t n).1
  exact ⟨h3.trans h1, h4.trans h2⟩

/-! ## Helper lemmas: the driver loop -/

theorem runLines_count (now : Clock) (lines : List String) (idx : Nat) (fmt : String) :
    (runLines now lines idx fmt).1.length +
      (lines.filter (fun l => trimS l == "")).length = lines.length := by
  induction lines generalizing idx fmt with
  | nil => simp [runLines]
  | cons l rest ih =>
    by_cases hb : trimS l = ""
    · simp only [runLines, if_pos hb, List.filter_cons]
      rw [if_pos (by simpa using hb)]
      simp only [List.length_cons]
      have := ih (idx + 1) fmt
      omega
    · simp only [runLines, if_neg hb, List.filter_cons]
      rw [if_neg (by simpa using hb)]
      simp only [List.length_cons]
      have := ih (idx + 1) (processLine now (trimS l) (idx + 1)).2
      omega

theorem runLines_count_nonblank (now : Clock) (lines : List String) (idx : Nat)
    (fmt : String) :
    (runLines now lines idx fmt).1.length =
      (lines.filter (fun l => !(trimS l == ""))).length := by
  induction lines generalizing idx fmt with
  | nil => simp [runLines]
  | cons l rest ih =>
    by_cases hb : trimS l = ""
    · simp only [runLines, if_pos hb, List.filter_cons]
      rw [if_neg (by simpa using hb)]
      exact ih (idx + 1) fmt
    · simp only [runLines, if_neg hb, List.filter_cons]
      rw [if_pos (by simpa using hb)]
      simp only [List.length_cons]
      rw [ih (idx + 1) (processLine now (trimS l) (idx + 1)).2]

theorem mem_runLines {now : Clock} {lines : List String} {idx : Nat} {fmt : String}
    {e : LogEntry} (h : e ∈ (runLines now lines idx fmt).1) :
    ∃ l, l ∈ lines ∧ trimS l ≠ "" ∧ ∃ n, e = (processLine now (trimS l) n).1 := by
  induction lines generalizing idx fmt with
  | nil => simp [runLines] at h
  | cons l rest ih =>
    by_cases hb : trimS l = ""
    · rw [runLines, if_pos hb] at h
      obtain ⟨l', hmem, hne, n, he⟩ := ih h
      exact ⟨l', List.mem_cons_of_mem l hmem, hne, n, he⟩
    · rw [runLines, if_neg hb] at h
      rcases List.mem_cons.mp h with he | h2
      · exact ⟨l, List.mem_cons_self l rest, hb, idx + 1, he⟩
      · obtain ⟨l', hmem, hne, n, he⟩ := ih h2
        exact ⟨l', List.mem_cons_of_mem l hmem, hne, n, he⟩

theorem firstMatch_mem {ps : List LogPattern} {line : String} {p : LogPattern}
    {caps : Caps} (h : firstMatch ps line = some (p, caps)) : p ∈ ps := by
  induction ps with
  | nil => simp [firstMatch] at h
  | cons q rest ih =>
    rw [firstMatch] at h
    cases hr : runPattern q line with
    | some c =>
      rw [hr] at h
      injection h with h
      rw [show q = p from congrArg Prod.fst h]
      exact List.mem_cons_self p rest
    | none =>
      rw [hr] at h
      exact List.mem_cons_of_mem q (ih h)

theorem patterns_name_ne {p : LogPattern} (h : p ∈ LOG_PATTERNS) :
    p.name ≠ "Unknown" := by
  simp only [LOG_PATTERNS, List.mem_cons, List.not_mem_nil, or_false] at h
  rcases h with h | h | h | h | h | h <;> subst h <;> decide

theorem processLine_fmt_ne (now : Clock) (t : String) (n : Nat) :
    (processLine now t n).2 ≠ "Unknown" := by
  have h2 : (processLine now t n).2 = (classifyLine now t n).2 := rfl
  rw [h2]
  unfold classifyLine
  cases hq : (if lineStartsLbrace t then parseJsonLog now t n else none) with
  | some e =>
    show ("JSON format" : String) ≠ "Unknown"
    decide
  | none =>
    cases hm : firstMatch LOG_PATTERNS t with
    | none =>
      show ("Plain text" : String) ≠ "Unknown"
      decide
    | some pc =>
      obtain ⟨p, caps⟩ := pc
      show p.name ≠ "Unknown"
      exact patterns_name_ne (firstMatch_mem hm)

theorem runLines_all_blank {now : Clock} {lines : List String} {idx : Nat}
    {fmt : String} (h : ∀ l ∈ lines, trimS l = "") :
    runLines now lines idx fmt = ([], fmt) := by
  induction lines generalizing idx fmt with
  | nil => rfl
  | cons l rest ih =>
    rw [runLines, if_pos (h l (List.mem_cons_self l rest))]
    exact ih fun l' hl' => h l' (List.mem_cons_of_mem l hl')

theorem runLines_fmt_preserve {now : Clock} {lines : List String} {idx : Nat}
    {fmt : String} (h : fmt ≠ "Unknown") :
    (runLines now lines idx fmt).2 ≠ "Unknown" := by
  induction lines generalizing idx fmt with
  | nil => exact h
  | cons l rest ih =>
    by_cases hb : trimS l = ""
    · rw [runLines, if_pos hb]
      exact ih h
    · rw [runLines, if_neg hb]
      exact ih (processLine_fmt_ne now (trimS l) (idx + 1))

theorem runLines_fmt_nonblank {now : Clock} {lines : List String} {idx : Nat}
    {fmt : String} (h : ∃ l ∈ lines, trimS l ≠ "") :
    (runLines now lines idx fmt).2 ≠ "Unknown" := by
  induction lines generalizing idx fmt with
  | nil => simp at h
  | cons l rest ih =>
    by_cases hb : trimS l = ""
    · rw [runLines, if_pos hb]
      apply ih
      rcases h with ⟨l', hmem, hne⟩
      rcases List.mem_cons.mp hmem with he | h2
      · exact absurd (he ▸ hb) hne
      · exact ⟨l', h2, hne⟩
    · rw [runLines, if_neg hb]
      exact runLines_fmt_preserve (processLine_fmt_ne now (trimS l) (idx + 1))

/-! ## Helper lemmas: position-independence of record content

A record's non-positional fields depend only on the trimmed line and the
clock; the line number reaches only `id` and `lineNumber`. -/

theorem parseJsonLog_shift (now : Clock) (t : String) (n : Nat) :
    parseJsonLog now t n = (parseJsonLog now t 1).map (fun e => withIdLn e n) := by
  unfold parseJsonLog
  cases hj : jsonParse t with
  | none => rfl
  | some j =>
    dsimp only
    cases hl : levelOfJson j with
    | none => rfl
    | some lvl => rfl

theorem bfTs_withIdLn (now : Clock) (j : Json) (e : LogEntry) (n : Nat) :
    backfillTimestamp now j (withIdLn e n) = withIdLn (backfillTimestamp now j e) n := by
  unfold backfillTimestamp withIdLn
  dsimp only
  by_cases h : e.timestamp.isSome = true
  · simp only [if_pos h]
  · simp only [if_neg h]
    cases hp : pickJson j tsKeys with
    | none => rfl
    | some v => cases v <;> rfl

theorem bfLvl_withIdLn (j : Json) (e : LogEntry) (n : Nat) :
    backfillLevel j (withIdLn e n) = withIdLn (backfillLevel j e) n := by
  unfold backfillLevel withIdLn
  dsimp only
  by_cases h : optTruthyStr e.level = true
  · simp only [if_pos h]
  · simp only [if_neg h]
    cases hp : coerceLevel (pickJson j levelKeys) with
    | none => rfl
    | some lvl => rfl

theorem bfSrc_withIdLn (j : Json) (e : LogEntry) (n : Nat) :
    backfillSource j (withIdLn e n) = withIdLn (backfillSource j e) n := by
  unfold backfillSource withIdLn
  dsimp only
  by_cases h : optTruthyStr e.source = true
  · simp only [if_pos h]
  · simp only [if_neg h]
    cases hp : pickJson j sourceKeys with
    | none => rfl
    | some v => cases v <;> rfl

theorem bfThr_withIdLn (j : Json) (e : LogEntry) (n : Nat) :
    backfillThread j (withIdLn e n) = withIdLn (backfillThread j e) n := by
  unfold backfillThread withIdLn
  dsimp only
  by_cases h : optTruthyStr e.thread = true
  · simp only [if_pos h]
  · simp only [if_neg h]
    cases hp : pickJson j threadKeys with
    | none => rfl
    | some v => cases v <;> rfl

theorem rwMsg_withIdLn (json : Json) (startIdx endIdx : Nat) (e : LogEntry) (n : Nat) :
    rewriteMessage json startIdx endIdx (withIdLn e n) =
      withIdLn (rewriteMessage json startIdx endIdx e) n := by
  unfold rewriteMessage withIdLn
  dsimp only
  cases hd : derivedMessage json with
  | none => rfl
  | some d =>
    by_cases h : (d != "") = true
    · simp only [if_pos h]
    · simp only [if_neg h]

theorem applyExtracted_withIdLn (now : Clock) (json : Json) (startIdx endIdx : Nat)
    (e : LogEntry) (n : Nat) :
    applyExtracted now json startIdx endIdx (withIdLn e n) =
      withIdLn (applyExtracted now json startIdx endIdx e) n := by
  unfold applyExtracted
  rw [show ({ withIdLn e n with metadata := some json } : LogEntry) =
        withIdLn { e with metadata := some json } n from rfl,
      bfTs_withIdLn, bfLvl_withIdLn, bfSrc_withIdLn, bfThr_withIdLn,
      rwMsg_withIdLn]

theorem enrich_withIdLn (now : Clock) (e : LogEntry) (n : Nat) :
    enrichEntry now (withIdLn e n) = withIdLn (enrichEntry now e) n := by
  unfold enrichEntry
  rw [show (withIdLn e n).metadata = e.metadata from rfl,
    show (withIdLn e n).message = e.message from rfl]
  cases hm : e.metadata with
  | some j => rfl
  | none =>
    cases hx : extractFirstJsonObject e.message with
    | none => rfl
    | some triple =>
      obtain ⟨json, startIdx, endIdx⟩ := triple
      exact applyExtracted_withIdLn now json startIdx endIdx e n

theorem classify_shift (now : Clock) (t : String) (n : Nat) :
    classifyLine now t n =
      (withIdLn (classifyLine now t 1).1 n, (classifyLine now t 1).2) := by
  unfold classifyLine
  by_cases hb : lineStartsLbrace t = true
  · rw [if_pos hb, if_pos hb, parseJsonLog_shift now t n]
    cases parseJsonLog now t 1 with
    | some e => rfl
    | none =>
      cases firstMatch LOG_PATTERNS t with
      | some pc => obtain ⟨p, caps⟩ := pc; rfl
      | none => rfl
  · rw [if_neg hb, if_neg hb]
    cases firstMatch LOG_PATTERNS t with
    | some pc => obtain ⟨p, caps⟩ := pc; rfl
    | none => rfl

theorem processLine_shift (now : Clock) (t : String) (n : Nat) :
    processLine now t n =
      (withIdLn (processLine now t 1).1 n, (processLine now t 1).2) := by
  unfold processLine
  rw [classify_shift now t n]
  dsimp only
  rw [enrich_withIdLn]

/-! ## The claims -/

/-- Claim C6 (confirmed): every non-blank line produces exactly one record
and blank lines produce none — the number of records plus the number of
blank (whitespace-only) lines equals `totalLines`, which is the number of
segments of the input split on a newline. -/
theorem C6_record_count (now : Clock) (content filename : String) :
    (parseLogFile now content filename).totalLines = (jsSplit content).length ∧
    (parseLogFile now content filename).entries.length +
        ((jsSplit content).filter (fun l => trimS l == "")).length =
      (parseLogFile now content filename).totalLines := by
  exact ⟨rfl, runLines_count now (jsSplit content) 0 "Unknown"⟩

/-- Claim C7 (confirmed): the Embedded-JSON Extractor only fills fields
that are currently absent — a record whose timestamp, level, source or
thread is already present (truthy) keeps that exact value through the
enrichment, and the positional fields `id`, `rawLine`, `lineNumber` are
never touched; only `metadata` and `message` may be rewritten. -/
theorem C7_backfill_only_absent (now : Clock) (e : LogEntry) :
    ((enrichEntry now e).id = e.id ∧ (enrichEntry now e).rawLine = e.rawLine ∧
        (enrichEntry now e).lineNumber = e.lineNumber) ∧
    (e.timestamp.isSome = true → (enrichEntry now e).timestamp = e.timestamp) ∧
    (optTruthyStr e.level = true → (enrichEntry now e).level = e.level) ∧
    (optTruthyStr e.source = true → (enrichEntry now e).source = e.source) ∧
    (optTruthyStr e.thread = true → (enrichEntry now e).thread = e.thread) := by
  refine ⟨enrich_frame now e, ?_⟩
  rcases enrich_shape now e with h | ⟨json, ts, lv, src, thr, m, h, g1, g2, g3, g4, -⟩
  · rw [h]
    exact ⟨fun _ => rfl, fun _ => rfl, fun _ => rfl, fun _ => rfl⟩
  · rw [h]
    exact ⟨fun hs => g1 hs, fun hs => g2 hs, fun hs => g3 hs, fun hs => g4 hs⟩

/-- Witness for C7: a record with all four fields present passes through
the extractor unchanged in those fields. -/
theorem C7_witness :
    wEntry.timestamp.isSome = true ∧ optTruthyStr wEntry.level = true ∧
    optTruthyStr wEntry.source = true ∧ optTruthyStr wEntry.thread = true ∧
    (enrichEntry refClock wEntry).timestamp = wEntry.timestamp ∧
    (enrichEntry refClock wEntry).level = wEntry.level ∧
    (enrichEntry refClock wEntry).source = wEntry.source ∧
    (enrichEntry refClock wEntry).thread = wEntry.thread :=
  ⟨rfl, rfl, rfl, rfl,
    (C7_backfill_only_absent refClock wEntry).2.1 rfl,
    (C7_backfill_only_absent refClock wEntry).2.2.1 rfl,
    (C7_backfill_only_absent refClock wEntry).2.2.2.1 rfl,
    (C7_backfill_only_absent refClock wEntry).2.2.2.2 rfl⟩

/-- Claim C8 (confirmed): `parseLogFile` is a total function that returns
the aggregate result for every input — the filename label and total line
count are always produced, every non-blank line contributes exactly one
record no matter its content, a full-line JSON parse failure silently
yields no interpreter result (the registry then takes over), and a failed
embedded-object scan leaves the record exactly as classified. -/
theorem C8_never_throws (now : Clock) (content filename : String) :
    (parseLogFile now content filename).filename = filename ∧
    (parseLogFile now content filename).totalLines = (jsSplit content).length ∧
    (parseLogFile now content filename).entries.length =
      ((jsSplit content).filter (fun l => !(trimS l == ""))).length ∧
    (∀ line n, jsonParse line = none → parseJsonLog now line n = none) ∧
    (∀ e : LogEntry, e.metadata = none → extractFirstJsonObject e.message = none →
      enrichEntry now e = e) := by
  refine ⟨rfl, rfl, runLines_count_nonblank now (jsSplit content) 0 "Unknown",
    ?_, ?_⟩
  · intro line n h
    unfold parseJsonLog
    rw [h]
  · intro e hm hx
    unfold enrichEntry
    rw [hm, hx]

/-- Witness for C8: concrete recoveries — a malformed JSON line yields no
interpreter result, and a record without an embedded object is untouched. -/
theorem C8_witness :
    (parseLogFile refClock "\x7bbad\nok line" "f").filename = "f" ∧
    jsonParse "\x7bbad" = none ∧ parseJsonLog refClock "\x7bbad" 1 = none ∧
    wHelloEntry.metadata = none ∧
    extractFirstJsonObject wHelloEntry.message = none ∧
    enrichEntry refClock wHelloEntry = wHelloEntry :=
  ⟨(C8_never_throws refClock "\x7bbad\nok line" "f").1, rfl,
    (C8_never_throws refClock "\x7bbad\nok line" "f").2.2.2.1 "\x7bbad" 1 rfl,
    rfl, rfl,
    (C8_never_throws refClock "\x7bbad\nok line" "f").2.2.2.2 wHelloEntry rfl rfl⟩

/-- Claim C10 (confirmed): an input of only blank or whitespace-only lines
(including the empty string) yields zero records and the initial
detected-format label `"Unknown"`, and that label is never produced once
any line has been classified. -/
theorem C10_blank_only (now : Clock) (content filename : String) :
    ((∀ l ∈ jsSplit content, trimS l = "") →
      (parseLogFile now content filename).entries = [] ∧
      (parseLogFile now content filename).detectedFormat = "Unknown") ∧
    ((∃ l ∈ jsSplit content, trimS l ≠ "") →
      (parseLogFile now content filename).detectedFormat ≠ "Unknown") := by
  constructor
  · intro h
    have hall := @runLines_all_blank now (jsSplit content) 0 "Unknown" h
    constructor
    · show (runLines now (jsSplit content) 0 "Unknown").1 = []
      rw [hall]
    · show (runLines now (jsSplit content) 0 "Unknown").2 = "Unknown"
      rw [hall]
  · intro h
    exact runLines_fmt_nonblank h

/-- Witness for C10: the empty input gives zero records and `"Unknown"`;
a single non-blank line gives something else. -/
theorem C10_witness :
    ((parseLogFile refClock "" "f").entries = [] ∧
      (parseLogFile refClock "" "f").detectedFormat = "Unknown") ∧
    (parseLogFile refClock "x" "f").detectedFormat ≠ "Unknown" :=
  ⟨(C10_blank_only refClock "" "f").1 (by decide),
    (C10_blank_only refClock "x" "f").2 ⟨"x", by decide, by decide⟩⟩

/-- Counterexample to claim C1: the full-line JSON interpreter stores the
upper-cased `level` value verbatim — the line `\x7b"level":"verbose"\x7d`
yields a record whose level is the string `"VERBOSE"`, which is outside the
six-level vocabulary, where the claim demands an absent level. -/
theorem C1_counterexample :
    (parseLogFile refClock "\x7b\"level\":\"verbose\"\x7d" "app.log").entries.map
        (fun e => e.level) = [some "VERBOSE"] ∧
      "VERBOSE" ∉ allowedLevels :=
  ⟨rfl, by decide⟩

/-- Claim C1 as amended: in the Full-Line JSON Interpreter the record's
level is the object's `level` value upper-cased and stored verbatim
whenever that value is a string — no vocabulary restriction is applied on
this path (the six-level restriction exists only in the embedded-JSON
backfill's `coerceLevel`). -/
theorem C1_amended (now : Clock) (line : String) (n : Nat) (j : Json) (s : String)
    (hp : jsonParse line = some j) (hl : jsLookup j "level" = some (Json.str s)) :
    ∃ e, parseJsonLog now line n = some e ∧ e.level = some (upperS s) := by
  unfold parseJsonLog
  rw [hp]
  dsimp only
  have hlv : levelOfJson j = some (some (upperS s)) := by
    unfold levelOfJson
    rw [hl]
  rw [hlv]
  exact ⟨_, rfl, rfl⟩

/-- Witness for C1's amended statement at the line `\x7b"level":"warning"\x7d`. -/
theorem C1_witness :
    jsonParse "\x7b\"level\":\"warning\"\x7d" =
        some (Json.obj [("level", Json.str "warning")]) ∧
    ∃ e, parseJsonLog refClock "\x7b\"level\":\"warning\"\x7d" 7 = some e ∧
      e.level = some (upperS "warning") :=
  ⟨rfl, C1_amended refClock "\x7b\"level\":\"warning\"\x7d" 7
    (Json.obj [("level", Json.str "warning")]) "warning" rfl rfl⟩

/-- Counterexample to claim C2: the registry is not free of full-line JSON
handling — it contains a sixth `"JSON format"` entry matching
`^\x7b.*\x7d$`, so the line `\x7bnot json\x7d`, which begins with a brace
and fails strict JSON parsing, is classified by the registry with
detected-format `"JSON format"`, which the claim says can never happen. -/
theorem C2_counterexample :
    lineStartsLbrace "\x7bnot json\x7d" = true ∧
    jsonParse "\x7bnot json\x7d" = none ∧
    (parseLogFile refClock "\x7bnot json\x7d" "app.log").detectedFormat =
      "JSON format" :=
  ⟨rfl, rfl, rfl⟩

/-- Claim C2 as amended: for every trimmed line beginning with a brace that
fails strict JSON parsing, control passes to the registry's six structural
matchers (the registry includes its own JSON-shape entry), and when none of
the six matches, the line yields the plain-text record with detected-format
`"Plain text"`. -/
theorem C2_amended (now : Clock) (t : String) (n : Nat)
    (hb : lineStartsLbrace t = true) (hp : jsonParse t = none)
    (hm : firstMatch LOG_PATTERNS t = none) :
    processLine now t n = (enrichEntry now (plainTextEntry t n), "Plain text") := by
  have hpj : parseJsonLog now t n = none := by
    unfold parseJsonLog
    rw [hp]
  have hc : classifyLine now t n = (plainTextEntry t n, "Plain text") := by
    unfold classifyLine
    rw [if_pos hb, hpj, hm]
  show (enrichEntry now (classifyLine now t n).1, (classifyLine now t n).2) = _
  rw [hc]

/-- Witness for C2's amended statement at the line `\x7bbroken`, which
starts with a brace, fails JSON parsing and matches no registry entry. -/
theorem C2_witness :
    lineStartsLbrace "\x7bbroken" = true ∧ jsonParse "\x7bbroken" = none ∧
    firstMatch LOG_PATTERNS "\x7bbroken" = none ∧
    processLine refClock "\x7bbroken" 5 =
      (enrichEntry refClock (plainTextEntry "\x7bbroken" 5), "Plain text") :=
  ⟨rfl, rfl, rfl, C2_amended refClock "\x7bbroken" 5 rfl rfl rfl⟩

/-- Counterexample to claim C3: `rawLine` is the trimmed line, not the
original content — for the input line `  padded` the record's `rawLine` is
`padded`, with the leading whitespace lost. -/
theorem C3_counterexample :
    (parseLogFile refClock "  padded" "app.log").entries.map
        (fun e => e.rawLine) = ["padded"] ∧
      ("padded" : String) ≠ "  padded" :=
  ⟨rfl, by decide⟩

/-- Claim C3 as amended: every record's `rawLine` equals the trimmed
content of its input line (leading and trailing whitespace removed,
interior whitespace preserved), and it is never mutated afterwards — the
embedded-JSON enrichment preserves `rawLine` on every record. -/
theorem C3_amended (now : Clock) (content filename : String) :
    (∀ e ∈ (parseLogFile now content filename).entries,
      ∃ l ∈ jsSplit content, e.rawLine = trimS l) ∧
    (∀ e : LogEntry, (enrichEntry now e).rawLine = e.rawLine) := by
  constructor
  · intro e he
    have he2 : e ∈ (runLines now (jsSplit content) 0 "Unknown").1 := he
    obtain ⟨l, hmem, hne, n, heq⟩ := mem_runLines he2
    refine ⟨l, hmem, ?_⟩
    rw [heq]
    exact (processLine_fields now (trimS l) n).1
  · intro e
    exact (enrich_frame now e).2.1

/-- Witness for C3's amended statement on the single-line input `  padded`. -/
theorem C3_witness :
    (∃ l ∈ jsSplit "  padded", wPaddedEntry.rawLine = trimS l) ∧
    (enrichEntry refClock wPaddedEntry).rawLine = wPaddedEntry.rawLine :=
  ⟨(C3_amended refClock "  padded" "f").1 wPaddedEntry (List.Mem.head _),
    (C3_amended refClock "  padded" "f").2 wPaddedEntry⟩

/-- Counterexample to claim C4: the embedded-JSON backfill consults the
keys `severity` and `lvl` for the level, which the full-line interpreter
never does — a plain-text line whose embedded object has only a `severity`
key (spelled with a `\u0065` escape so the heuristic scanner finds no level
word in the raw text) gets its level backfilled to `ERROR`. -/
theorem C4_counterexample :
    jsonParse "\x7b\"severity\":\"\\u0065rror\"\x7d" =
        some (Json.obj [("severity", Json.str "error")]) ∧
    jsLookup (Json.obj [("severity", Json.str "error")]) "level" = none ∧
    (parseLogFile refClock "oops \x7b\"severity\":\"\\u0065rror\"\x7d"
        "app.log").entries.map (fun e => e.level) = [some "ERROR"] :=
  ⟨rfl, rfl, rfl⟩

/-- Claim C4 as amended: the backfill's candidate keys are exactly
`timestamp`,`@timestamp`,`time`,`ts` for the timestamp;
`level`,`severity`,`lvl` (not just `level`) for the level, coerced to the
six-level vocabulary; `source`,`logger`,`module`,`service` for the source;
and `thread`,`process`,`correlationId` for the thread — no other key is
consulted: two objects agreeing on a field's candidate list produce the
same backfilled field. -/
theorem C4_amended (now : Clock) (e : LogEntry) (j j' : Json) :
    ((∀ k ∈ tsKeys, jsLookup j k = jsLookup j' k) →
      (backfillTimestamp now j e).timestamp = (backfillTimestamp now j' e).timestamp) ∧
    ((∀ k ∈ levelKeys, jsLookup j k = jsLookup j' k) →
      (backfillLevel j e).level = (backfillLevel j' e).level) ∧
    ((∀ k ∈ sourceKeys, jsLookup j k = jsLookup j' k) →
      (backfillSource j e).source = (backfillSource j' e).source) ∧
    ((∀ k ∈ threadKeys, jsLookup j k = jsLookup j' k) →
      (backfillThread j e).thread = (backfillThread j' e).thread) := by
  refine ⟨fun h => ?_, fun h => ?_, fun h => ?_, fun h => ?_⟩
  · unfold backfillTimestamp
    rw [pickJson_congr h]
  · unfold backfillLevel
    rw [pickJson_congr h]
  · unfold backfillSource
    rw [pickJson_congr h]
  · unfold backfillThread
    rw [pickJson_congr h]

/-- Witness for C4's amended statement: two objects differing only in a
key outside every candidate list backfill identically. -/
theorem C4_witness :
    (backfillTimestamp refClock wJsonA wHelloEntry).timestamp =
        (backfillTimestamp refClock wJsonB wHelloEntry).timestamp ∧
    (backfillLevel wJsonA wHelloEntry).level =
        (backfillLevel wJsonB wHelloEntry).level ∧
    (backfillSource wJsonA wHelloEntry).source =
        (backfillSource wJsonB wHelloEntry).source ∧
    (backfillThread wJsonA wHelloEntry).thread =
        (backfillThread wJsonB wHelloEntry).thread :=
  ⟨(C4_amended refClock wHelloEntry wJsonA wJsonB).1
      (by intro k hk; fin_cases hk <;> rfl),
    (C4_amended refClock wHelloEntry wJsonA wJsonB).2.1
      (by intro k hk; fin_cases hk <;> rfl),
    (C4_amended refClock wHelloEntry wJsonA wJsonB).2.2.1
      (by intro k hk; fin_cases hk <;> rfl),
    (C4_amended refClock wHelloEntry wJsonA wJsonB).2.2.2
      (by intro k hk; fin_cases hk <;> rfl)⟩

/-- Counterexample to claim C5: a registry matcher's rest-of-line capture
may be empty and is stored verbatim — the line `[10:30:45]` matches the
`Simple timestamp` entry and produces a record with an empty message. -/
theorem C5_counterexample :
    (parseLogFile refClock "[10:30:45]" "app.log").entries.map
        (fun e => e.message) = [""] ∧
    (parseLogFile refClock "[10:30:45]" "app.log").detectedFormat =
      "Simple timestamp" :=
  ⟨rfl, rfl⟩

/-- Claim C5 as amended: the message is non-empty for every record built
by the full-line JSON interpreter or the plain-text fallback (and the
enrichment never empties a message) — only a registry matcher can produce
an empty message, by copying an empty rest-of-line capture verbatim. -/
theorem C5_amended (now : Clock) (t : String) (n : Nat) (h1 : t ≠ "")
    (h2 : firstMatch LOG_PATTERNS t = none) :
    ((processLine now t n).1).message ≠ "" := by
  show ((enrichEntry now (classifyLine now t n).1)).message ≠ ""
  cases hq : (if lineStartsLbrace t then parseJsonLog now t n else none) with
  | some e =>
    have hpj : parseJsonLog now t n = some e := by
      cases hb : lineStartsLbrace t with
      | false => rw [hb] at hq; simp at hq
      | true => rw [hb] at hq; simpa using hq
    obtain ⟨-, -, hmsg, hmeta⟩ := parseJsonLog_fields hpj
    have hc : (classifyLine now t n).1 = e := by
      unfold classifyLine
      rw [hq]
    rw [hc]
    obtain ⟨jm, hjm⟩ := Option.isSome_iff_exists.mp hmeta
    rw [enrich_of_metadata_some hjm]
    exact hmsg
  | none =>
    have hc : (classifyLine now t n).1 = plainTextEntry t n := by
      unfold classifyLine
      rw [hq, h2]
    rw [hc]
    rcases enrich_message_shape now (plainTextEntry t n) with h | h
    · rw [h]
      exact h1
    · exact h

/-- Witness for C5's amended statement at the plain-text line `hello`. -/
theorem C5_witness :
    ("hello" : String) ≠ "" ∧ firstMatch LOG_PATTERNS "hello" = none ∧
    ((processLine refClock "hello" 1).1).message ≠ "" :=
  ⟨by decide, rfl, C5_amended refClock "hello" 1 (by decide) rfl⟩

/-- Claim C9 (confirmed): re-parsing idempotence — for every record of a
parse, parsing the single-line input equal to its `rawLine` (same filename,
same reference clock) yields exactly one record with identical level,
timestamp, message and metadata. -/
theorem C9_reparse (now : Clock) (content filename : String) (e : LogEntry)
    (he : e ∈ (parseLogFile now content filename).entries) :
    ∃ e', (parseLogFile now e.rawLine filename).entries = [e'] ∧
      e'.level = e.level ∧ e'.timestamp = e.timestamp ∧
      e'.message = e.message ∧ e'.metadata = e.metadata := by
  have he2 : e ∈ (runLines now (jsSplit content) 0 "Unknown").1 := he
  obtain ⟨l, hmem, hne, n, heq⟩ := mem_runLines he2
  have hraw : e.rawLine = trimS l := by
    rw [heq]
    exact (processLine_fields now (trimS l) n).1
  have hln : '\n' ∉ (trimS l).data := by
    intro hmem2
    obtain ⟨p, hp, hpe⟩ := List.mem_map.mp hmem
    have hpl : l.data = p := by rw [← hpe]
    have h3 : '\n' ∈ l.data := mem_trimL hmem2
    rw [hpl] at h3
    exact splitNlL_no_nl hp h3
  have hsplit : jsSplit e.rawLine = [e.rawLine] := by
    rw [hraw]
    show (splitNlL (trimS l).data).map String.mk = [trimS l]
    rw [splitNlL_single hln]
    rfl
  have htrim : trimS e.rawLine = e.rawLine := by
    rw [hraw]
    show String.mk (trimL (String.mk (trimL l.data)).data) = String.mk (trimL l.data)
    rw [show (String.mk (trimL l.data)).data = trimL l.data from rfl, trimL_idem]
  have hne2 : ¬(trimS e.rawLine = "") := by
    rw [htrim, hraw]
    exact hne
  rw [htrim] at hne2
  refine ⟨(processLine now e.rawLine 1).1, ?_, ?_, ?_, ?_, ?_⟩
  · show (runLines now (jsSplit e.rawLine) 0 "Unknown").1 = _
    rw [hsplit]
    simp only [runLines, htrim, if_neg hne2]
  · rw [hraw, heq, processLine_shift now (trimS l) n]
    rfl
  · rw [hraw, heq, processLine_shift now (trimS l) n]
    rfl
  · rw [hraw, heq, processLine_shift now (trimS l) n]
    rfl
  · rw [hraw, heq, processLine_shift now (trimS l) n]
    rfl

/-- Witness for C9 at the single-line input `hello`, whose record is
`wHelloEntry`. -/
theorem C9_witness :
    ∃ e', (parseLogFile refClock wHelloEntry.rawLine "f").entries = [e'] ∧
      e'.level = wHelloEntry.level ∧ e'.timestamp = wHelloEntry.timestamp ∧
      e'.message = wHelloEntry.message ∧ e'.metadata = wHelloEntry.metadata :=
  C9_reparse refClock "hello" "f" wHelloEntry (List.Mem.head _)

end Loggy
